import Mathlib

/-!
A shallow embedding of the core of the `nodejs_resolver` module-resolution
library, together with theorems about its behaviour.

Definitions are translated from the repository sources
(`src/lib.rs`, `src/resolve.rs`, `src/plugin/main_field.rs`).
Components whose source files are not part of the repository snapshot
(the request parser, the filesystem probe, the plugins other than
`MainFieldPlugin`, the option types and the normalizer) are modelled from
the specification; each such definition carries a doc comment saying so.

Filesystem access is represented by an explicit `FileSystem` value holding
the probe (`load_entry`) and the manifest loader (`load_pkg_file`); the
caches of the real implementation are read-through memoizations of these
collaborators, so a fixed `FileSystem` models a run over an unchanged
filesystem with warm caches.  Recursive re-entries into `_resolve` are
bounded by an explicit fuel argument realising the recursion-depth
loop-guard of the specification (§5).
-/

namespace NodeResolver

/-- An absolute filesystem path, as the list of its segments below the root
(`[]` is the root `/`). -/
abbrev Path := List String

/-- String prefix test through the character list (structurally recursive,
so concrete runs evaluate inside proofs). -/
def strStartsWith (s pre : String) : Bool := pre.toList.isPrefixOf s.toList

/-- String suffix test through the character list. -/
def strEndsWith (s suf : String) : Bool :=
  suf.toList.reverse.isPrefixOf s.toList.reverse

/-- Drop the first `n` characters of a string. -/
def strDrop (s : String) (n : Nat) : String := String.mk (s.toList.drop n)

/-- Drop the last `n` characters of a string. -/
def strDropRight (s : String) (n : Nat) : String :=
  String.mk (s.toList.take (s.toList.length - n))

/-- Split a character list on a separator character; always non-empty. -/
def splitOnChar (c : Char) : List Char → List (List Char)
  | [] => [[]]
  | ch :: rest =>
    match splitOnChar c rest with
    | [] => [[]]
    | cur :: parts =>
      if ch = c then [] :: cur :: parts else (ch :: cur) :: parts

/-- Split a string on a separator character (like Rust `split`). -/
def strSplitOnChar (c : Char) (s : String) : List String :=
  (splitOnChar c s.toList).map String.mk

/-- Replace every `*` of a character list by the given middle. -/
def replaceStar (mid : String) : List Char → List Char
  | [] => []
  | ch :: rest =>
    if ch = '*' then mid.toList ++ replaceStar mid rest
    else ch :: replaceStar mid rest

/-- Replace every `*` of a string by the given middle. -/
def strReplaceStar (s mid : String) : String := String.mk (replaceStar mid s.toList)

/-- Rust `Path::join` with a (possibly multi-segment) relative string. -/
def pathJoin (p : Path) (s : String) : Path := p ++ strSplitOnChar '/' s

/-- Rust `Path::parent`: `none` at the root. -/
def pathParent : Path → Option Path
  | [] => none
  | p@(_ :: _) => some p.dropLast

/-- resolve.rs `append_ext_for_path` (lines 13-15): append `ext` to the
textual rendering of the path, i.e. to its last segment. -/
def append_ext_for_path : Path → String → Path
  | [], ext => [ext]
  | [a], ext => [a ++ ext]
  | a :: b :: rest, ext => a :: append_ext_for_path (b :: rest) ext

/-- Request kind; the variants of §3 of the specification
(kind.rs is not in the snapshot). -/
inductive PathKind where
  | Empty
  | Relative
  | AbsolutePosix
  | AbsoluteWin
  | Internal
  | BuildInUri
  | Normal
deriving DecidableEq, Repr

/-- Modelled from the spec: Windows absolute paths, drive-letter
(`C:\` / `C:/`) or UNC (`\\host\share`) forms (§4.1). -/
def isAbsoluteWin (t : String) : Bool :=
  (match t.toList with
   | c :: ':' :: s :: _ => c.isAlpha && (s == '/' || s == '\\')
   | _ => false) || strStartsWith t "\\\\"

/-- Modelled from the spec: recognized built-in URI schemes (§3). -/
def isBuildInUri (t : String) : Bool :=
  strStartsWith t "data:" || strStartsWith t "http:" ||
    strStartsWith t "https:" || strStartsWith t "file:"

/-- Modelled from the spec: classification of a target string into its
`PathKind` (§3); parse.rs / kind.rs are not in the snapshot. -/
def get_target_kind (t : String) : PathKind :=
  if t = "" then .Empty
  else if strStartsWith t "./" || strStartsWith t "../" then .Relative
  else if strStartsWith t "/" then .AbsolutePosix
  else if isAbsoluteWin t then .AbsoluteWin
  else if strStartsWith t "#" then .Internal
  else if isBuildInUri t then .BuildInUri
  else .Normal

/-- A parsed request: `(target, query, fragment)` plus its kind (§3). -/
structure Request where
  target : String
  query : String
  fragment : String
  kind : PathKind
deriving DecidableEq, Repr

/-- lib.rs `Request::with_target`: replace the target, recomputing its kind
(the safe-cache memoization of the kind lookup is dropped; the computation
itself is modelled from the spec, parse.rs not being in the snapshot). -/
def Request.with_target (req : Request) (t : String) : Request :=
  { req with target := t, kind := get_target_kind t }

/-- The resolution state record carried through the pipeline
(lib.rs `ResolverInfo` / resolve.rs `Info`). -/
structure Info where
  path : Path
  request : Request
deriving DecidableEq, Repr

/-- lib.rs `ResolverInfo::with_path` (lines 113-115). -/
def Info.withPath (i : Info) (p : Path) : Info := { i with path := p }

/-- lib.rs `ResolverInfo::with_target` (lines 117-120). -/
def Info.with_target (i : Info) (t : String) : Info :=
  { i with request := i.request.with_target t }

/-- main_field.rs `Info::from(path).with_request(req)` second half. -/
def Info.with_request (i : Info) (req : Request) : Info := { i with request := req }

/-- lib.rs `ResolverInfo::get_path` (lines 105-111). -/
def Info.get_path (i : Info) : Path :=
  if i.request.target = "" then i.path else pathJoin i.path i.request.target

/-- Modelled from the spec §3: `normalized_path = base` when the target is
empty, else the join of base and target (normalize.rs is not in the
snapshot). -/
def Info.normalized_path (i : Info) : Path := i.get_path

/-- A raw JSON field value, as far as the main-field lookup inspects it. -/
inductive RawValue where
  | str (s : String)
  | other
deriving DecidableEq, Repr

/-- Rust `serde_json::Value::as_str`. -/
def RawValue.asStr : RawValue → Option String
  | .str s => some s
  | .other => none

/-- Modelled from the spec: an exports/imports field value — a string, a
conditional object, or an array (§4.4). -/
inductive ExpValue where
  | str (s : String)
  | conds (cs : List (String × ExpValue))
  | arr (vs : List ExpValue)

/-- A parsed manifest (`package.json`) for a directory
(description.rs `PkgInfo` / `DescriptionData`; the fields the core
consults, §3). -/
structure PkgInfo where
  dirPath : Path
  name : Option String := none
  raw : List (String × RawValue) := []
  exportsField : Option (List (String × ExpValue)) := none
  importsField : Option (List (String × ExpValue)) := none
  aliasFields : List (String × Option String) := []

/-- DescriptionData: `data().raw().get(field).and_then(as_str)` as used by
main_field.rs lines 22-28. -/
def PkgInfo.rawGetStr (pkg : PkgInfo) (field : String) : Option String :=
  (pkg.raw.lookup field).bind RawValue.asStr

/-- The probe's answer for one path (§3 `Entry`). -/
inductive EntryKind where
  | missing
  | file
  | dir
deriving DecidableEq, Repr

/-- A filesystem entry: its kind and, when present, the nearest enclosing
manifest (§3, §4.2). -/
structure Entry where
  kind : EntryKind
  pkgInfo : Option PkgInfo := none

def Entry.isFile (e : Entry) : Bool := e.kind == .file

def Entry.isDir (e : Entry) : Bool := e.kind == .dir

abbrev ResolverError := String

/-- The external collaborators (§1, §4.2): the filesystem probe
(`load_entry`) and the manifest loader (`load_pkg_file`). -/
structure FileSystem where
  loadEntry : Path → Except ResolverError Entry
  loadPkg : Path → Except ResolverError (Option PkgInfo)

/-- lib.rs `ResolverResult` (lines 133-137). -/
inductive ResolveResult where
  | Info (info : NodeResolver.Info)
  | Ignored
deriving DecidableEq, Repr

/-- The pipeline state (§4.3): the four variants of resolve.rs `State`,
which subsume lib.rs `ResolverStats` (whose `Error` also carries the info,
only used to rebuild the same variant). -/
inductive State where
  | Success (result : ResolveResult)
  | Resolving (info : Info)
  | Failed (info : Info)
  | Error (msg : ResolverError)
deriving DecidableEq, Repr

/-- lib.rs `ResolverStats::and_then` (lines 147-152) = resolve.rs
`State::then`: proceed only on `Resolving`, every other state
short-circuits. -/
def State.and_then (s : State) (op : Info → State) : State :=
  match s with
  | .Resolving info => op info
  | _ => s

/-- lib.rs `ResolverStats::is_success` (lines 154-156). -/
def State.is_success : State → Bool
  | .Success _ => true
  | _ => false

/-- Modelled from the spec: a finished state terminates resolution —
`Success` is terminal and `Error` is fatal for the call (§4.3, §7);
`State::is_finished` itself is not in the snapshot. -/
def State.is_finished : State → Bool
  | .Success _ => true
  | .Error _ => true
  | _ => false

/-- Modelled from the spec: an alias-table value, a replacement path or the
ignore marker (§6). -/
inductive AliasValue where
  | path (v : String)
  | ignore
deriving DecidableEq, Repr

/-- Modelled from the spec §6: the resolver options the embedded core
consults (options.rs is not in the snapshot).  `enforceExtension` follows
lib.rs's `Option<bool>` (`none` = Auto, `some true` = Enabled,
`some false` = Disabled). -/
structure ResolverOptions where
  extensions : List String := []
  enforceExtension : Option Bool := none
  aliasList : List (String × AliasValue) := []
  preferRelative : Bool := false
  mainFields : List String := ["main"]
  mainFiles : List String := ["index"]
  conditionNames : List String := []

/-- lib.rs `Resolver` (caches externalized into `FileSystem`). -/
structure Resolver where
  options : ResolverOptions

/-- lib.rs `MODULE` (line 167). -/
def MODULE : String := "node_modules"

/-- lib.rs `Resolver::new` (lines 172-208): strip one leading `.` from each
extension; when `enforce_extension` is unset, default it to whether some
stripped extension is empty. -/
def Resolver.new (options : ResolverOptions) : Resolver :=
  let extensions := options.extensions.map
    (fun s => if strStartsWith s "." then strDrop s 1 else s)
  let enforce_extension :=
    if options.enforceExtension.isNone then
      some (extensions.any (fun ext => ext == ""))
    else options.enforceExtension
  { options := { options with
      extensions := extensions, enforceExtension := enforce_extension } }

/-- resolve.rs `resolve_file_with_ext` loop (lines 17-29), recursing over
the remaining extensions. -/
def resolve_file_with_ext_go (fs : FileSystem) (path : Path) (info : Info) :
    List String → State
  | [] => State.Resolving info
  | ext :: rest =>
    let p := append_ext_for_path path ext
    match fs.loadEntry p with
    | .error err => State.Error err
    | .ok entry =>
      if entry.isFile then
        State.Success (ResolveResult.Info ((info.withPath p).with_target ""))
      else resolve_file_with_ext_go fs path info rest

/-- resolve.rs `resolve_file_with_ext` (lines 17-29). -/
def resolve_file_with_ext (r : Resolver) (fs : FileSystem) (path : Path)
    (info : Info) : State :=
  resolve_file_with_ext_go fs path info r.options.extensions

/-- resolve.rs `resolve_as_file` (lines 31-46); `EnforceExtension::Enabled`
is `some true`. -/
def resolve_as_file (r : Resolver) (fs : FileSystem) (info : Info) : State :=
  let path := info.get_path
  if r.options.enforceExtension == some true then
    resolve_file_with_ext r fs path info
  else
    match fs.loadEntry path with
    | .error err => State.Error err
    | .ok entry =>
      if entry.isFile then
        State.Success (ResolveResult.Info ((info.withPath path).with_target ""))
      else resolve_file_with_ext r fs path info

/-- Modelled from the spec: match a single-`*` subpath-pattern key against a
concrete key, returning the matched middle (§4.4). -/
def starKeyMatch (key k : String) : Option String :=
  match strSplitOnChar '*' key with
  | [a, b] =>
    if a.length + b.length ≤ k.length && strStartsWith k a && strEndsWith k b then
      some (strDropRight (strDrop k a.length) b.length)
    else none
  | _ => none

/-- Modelled from the spec: the specificity order on pattern keys — longer
matched prefix first, then longer suffix, then lexicographic (§4.4). -/
def starKeyBetter (key1 key2 : String) : Bool :=
  match strSplitOnChar '*' key1, strSplitOnChar '*' key2 with
  | [a1, b1], [a2, b2] =>
    a1.length > a2.length ||
      (a1.length == a2.length &&
        (b1.length > b2.length || (b1.length == b2.length && key1 < key2)))
  | _, _ => false

/-- Modelled from the spec: pick the most specific matching single-`*` key
of the map (§4.4). -/
def bestStarKey (m : List (String × ExpValue)) (k : String) :
    Option (String × ExpValue × String) :=
  m.foldl
    (fun best e =>
      match starKeyMatch e.1 k with
      | none => best
      | some mid =>
        match best with
        | none => some (e.1, e.2, mid)
        | some (bk, _, _) =>
          if starKeyBetter e.1 bk then some (e.1, e.2, mid) else best)
    none

/-- Modelled from the spec: subpath-pattern lookup — exact key first, else
the most specific single-`*` pattern, paired with the middle to substitute
for `*` (§4.4). -/
def subpathMatch (m : List (String × ExpValue)) (k : String) :
    Option (ExpValue × Option String) :=
  match m.lookup k with
  | some v => some (v, none)
  | none =>
    match bestStarKey m k with
    | some (_, v, mid) => some (v, some mid)
    | none => none

/-- Modelled from the spec: evaluate an exports/imports value — a string
produces itself, a conditional object commits to the first condition in
declaration order that is configured or `"default"`, an array tries each
element in order (§4.4).  The fuel bounds the nesting depth. -/
def resolveExp (cnames : List String) : Nat → ExpValue → Option String
  | 0, _ => none
  | _ + 1, .str s => some s
  | fuel + 1, .conds cs =>
    match cs.find? (fun c => cnames.contains c.1 || c.1 == "default") with
    | some c => resolveExp cnames fuel c.2
    | none => none
  | fuel + 1, .arr vs => vs.findSome? (fun v => resolveExp cnames fuel v)

/-- Modelled from the spec: full exports/imports field lookup; `*` in the
produced string is replaced by the matched middle (§4.4). -/
def fieldLookup (r : Resolver) (m : List (String × ExpValue)) (k : String) :
    Option String :=
  (subpathMatch m k).bind (fun vm =>
    (resolveExp r.options.conditionNames 64 vm.1).map (fun s =>
      match vm.2 with
      | some mid => strReplaceStar s mid
      | none => s))

/-- The first `n` bytes of a character list, returned as characters: `some`
when the offset lands on a UTF-8 character boundary, `none` when it would
split a character or run past the end — the Rust byte slice
`&target[0..n]` panics in exactly those cases. -/
def takeBytes : List Char → Nat → Option (List Char)
  | _, 0 => some []
  | [], _ + 1 => none
  | c :: cs, n + 1 =>
    if c.utf8Size ≤ n + 1 then
      (takeBytes cs (n + 1 - c.utf8Size)).map (fun l => c :: l)
    else none

/-- resolve.rs `get_module_name_from_request` (lines 143-156): collect the
indices of `/` in the target with `chars().enumerate()` — character
ordinals — then cut before the second slash for a scoped target, before
the first otherwise, keeping the whole target when the slash is absent.
The cut `&target[0..index]` is a byte slice at the character ordinal;
`none` models its panic when that byte offset is not a character
boundary. -/
def get_module_name_from_request_checked (target : String) : Option String :=
  let has_namespace_scope := strStartsWith target "@"
  let slash_index_list : List Nat :=
    ((target.toList.enum.filter (fun p => p.2 = '/')).map Prod.fst)
  match (if has_namespace_scope then slash_index_list.get? 1
         else slash_index_list.head?) with
  | some index => (takeBytes target.toList index).map String.mk
  | none => some target

/-- Total wrapper for the engine: on the inputs where the source's byte
slice panics (a multibyte character split by the char-ordinal offset) the
source aborts instead of returning a value; the wrapper falls back to the
whole target there.  The control-flow theorems about the engine treat this
function opaquely, so they are insensitive to the fallback. -/
def get_module_name_from_request (target : String) : String :=
  (get_module_name_from_request_checked target).getD target

/-- resolve.rs `is_resolve_self` (lines 158-165). -/
def is_resolve_self (pkg_info : PkgInfo) (request_module_name : String) : Bool :=
  ((pkg_info.name.map (fun pkg_name => request_module_name == pkg_name)).getD false)

/-- Modelled from the spec: `AliasPlugin` — first alias entry matching the
target by prefix-with-boundary either ignores, or rewrites and re-enters
`_resolve` (§4.3 item 1, §8); `res` is the re-entry into `_resolve`. -/
def aliasPluginGo (res : Info → State) (info : Info) :
    List (String × AliasValue) → State
  | [] => State.Resolving info
  | (key, value) :: rest =>
    if info.request.target == key ||
        strStartsWith info.request.target (key ++ "/") then
      match value with
      | .ignore => State.Success ResolveResult.Ignored
      | .path v =>
        res (info.with_target (v ++ strDrop info.request.target key.length))
    else aliasPluginGo res info rest

/-- Modelled from the spec: `AliasPlugin::apply` (§4.3 item 1; the plugin
source is not in the snapshot). -/
def aliasPluginApply (r : Resolver) (res : Info → State) (info : Info) : State :=
  aliasPluginGo res info r.options.aliasList

/-- Modelled from the spec: `PreferRelativePlugin::apply` — when enabled and
the kind is `Normal`, retry with `./` prefixed; a success wins, else the
original info continues (§4.3 item 2). -/
def preferRelativePluginApply (r : Resolver) (res : Info → State) (info : Info) :
    State :=
  if r.options.preferRelative && info.request.kind == PathKind.Normal then
    let st := res (info.with_target ("./" ++ info.request.target))
    if st.is_success then st else State.Resolving info
  else State.Resolving info

/-- Modelled from the spec: `ImportsFieldPlugin::apply` — active only for an
`Internal` request against a manifest with an imports map; a bare-module
result re-enters `_resolve`, any other result passes through rewritten; an
unresolvable internal specifier is an error (§4.3 item 3, §7). -/
def importsFieldPluginApply (r : Resolver) (res : Info → State)
    (pkgw : Option PkgInfo) (info : Info) : State :=
  match pkgw with
  | none => State.Resolving info
  | some pkg =>
    if info.request.kind == PathKind.Internal then
      match pkg.importsField with
      | none => State.Resolving info
      | some imap =>
        match fieldLookup r imap info.request.target with
        | none =>
          State.Error ("Package import " ++ info.request.target ++ " is not defined")
        | some v =>
          if get_target_kind v == PathKind.Normal then
            res ((info.withPath pkg.dirPath).with_target v)
          else State.Resolving ((info.withPath pkg.dirPath).with_target v)
    else State.Resolving info

/-- Modelled from the spec: `AliasFieldPlugin::apply` — a manifest alias
field key equal to the target maps to a replacement (recurses) or `false`
(produces `Ignored`) (§4.3 item 4). -/
def aliasFieldPluginApply (_r : Resolver) (res : Info → State)
    (pkgw : Option PkgInfo) (info : Info) : State :=
  match pkgw with
  | none => State.Resolving info
  | some pkg =>
    match pkg.aliasFields.lookup info.request.target with
    | none => State.Resolving info
    | some none => State.Success ResolveResult.Ignored
    | some (some replacement) => res (info.with_target replacement)

/-- Modelled from the spec: `ExportsFieldPlugin::apply` — look up the
remaining subpath (target with module-name stripped, prepended with `.`) in
the exports map; a valid result must begin with `./` and rewrites the info
onto the manifest directory; otherwise `PackagePathNotExported` (§4.4
step 5, §7). -/
def exportsFieldPluginApply (r : Resolver) (pkg : PkgInfo) (info : Info) : State :=
  match pkg.exportsField with
  | none => State.Resolving info
  | some emap =>
    let m := get_module_name_from_request info.request.target
    let subpath := "." ++ strDrop info.request.target m.length
    match fieldLookup r emap subpath with
    | some v =>
      if strStartsWith v "./" then
        State.Resolving ((info.withPath pkg.dirPath).with_target v)
      else State.Error ("Package path " ++ subpath ++ " is not exported")
    | none => State.Error ("Package path " ++ subpath ++ " is not exported")

/-- Modelled from the spec: the probe loop of `MainFilePlugin` — for one
main-file name, try each configured extension in order (§4.4). -/
def mainFileProbe (fs : FileSystem) (dir : Path) (name : String) :
    List String → Except ResolverError (Option Path)
  | [] => .ok none
  | ext :: rest =>
    let p := append_ext_for_path (dir ++ [name]) ext
    match fs.loadEntry p with
    | .error err => .error err
    | .ok entry =>
      if entry.isFile then .ok (some p) else mainFileProbe fs dir name rest

/-- Modelled from the spec: `MainFilePlugin` iteration over the configured
main-file names; the first hit wins, otherwise pass through (§4.4). -/
def mainFilePluginGo (r : Resolver) (fs : FileSystem) (info : Info) :
    List String → State
  | [] => State.Resolving info
  | name :: rest =>
    match mainFileProbe fs info.path name r.options.extensions with
    | .error err => State.Error err
    | .ok (some p) =>
      State.Success (ResolveResult.Info ((info.withPath p).with_target ""))
    | .ok none => mainFilePluginGo r fs info rest

/-- Modelled from the spec: `MainFilePlugin::apply` (§4.4; the plugin source
is not in the snapshot). -/
def mainFilePluginApply (r : Resolver) (fs : FileSystem) (info : Info) : State :=
  mainFilePluginGo r fs info r.options.mainFiles

/-- main_field.rs loop body (lines 21-54): look each main-field name up in
the raw manifest; a string value `"."` or `"./"` breaks out of the loop;
any other string value re-enters `_resolve` (through `res`) with the target
rewritten to it, prefixing `./` when absent; the first finished state is
returned.  Falling out of the loop passes the original info through. -/
def main_field_plugin_go (res : Info → State) (pkg_info : PkgInfo) (info : Info)
    (main_field_info : Info) : List String → State
  | [] => State.Resolving info
  | user_main_field :: rest =>
    match pkg_info.rawGetStr user_main_field with
    | none => main_field_plugin_go res pkg_info info main_field_info rest
    | some main_field =>
      if main_field == "." || main_field == "./" then
        State.Resolving info
      else
        let mfi :=
          if strStartsWith main_field "./" then main_field_info.with_target main_field
          else main_field_info.with_target ("./" ++ main_field)
        let state := res mfi
        if state.is_finished then state
        else main_field_plugin_go res pkg_info info main_field_info rest

/-- main_field.rs `MainFieldPlugin::apply` (lines 15-56): a no-op unless the
manifest's directory equals the normalized path; otherwise run the
main-field loop on a fresh info based at that path carrying the original
request. -/
def main_field_plugin_apply (r : Resolver) (res : Info → State)
    (pkg_info : PkgInfo) (info : Info) : State :=
  let path := info.normalized_path
  if !(decide (pkg_info.dirPath = path)) then State.Resolving info
  else
    let main_field_info :=
      (Info.mk path (Request.mk "" "" "" PathKind.Empty)).with_request info.request
    main_field_plugin_go res pkg_info info main_field_info r.options.mainFields

/-- resolve.rs `resolve_as_dir` (lines 49-66): not a directory is `Failed`;
a directory applies `MainFieldPlugin` against its manifest (when present)
and then `MainFilePlugin`. -/
def resolve_as_dir (r : Resolver) (fs : FileSystem) (res : Info → State)
    (info : Info) : State :=
  let dir := info.get_path
  match fs.loadEntry dir with
  | .error err => State.Error err
  | .ok entry =>
    if !entry.isDir then State.Failed info
    else
      let pkg_info := entry.pkgInfo
      let info := (info.withPath dir).with_target ""
      (match pkg_info with
       | some pkg_info => main_field_plugin_apply r res pkg_info info
       | none => State.Resolving info).and_then
        (fun info => mainFilePluginApply r fs info)

/-- resolve.rs lines 99-106: the exports stage of `resolve_as_modules` —
apply `ExportsFieldPlugin` unless the manifest's directory equals the
caller's directory (`out_node_modules`) and the request is not a
self-reference. -/
def exportsStage (r : Resolver) (pkg_info : PkgInfo) (original_dir : Path)
    (is_rs : Bool) (module_info : Info) : State :=
  let out_node_modules : Bool := decide (pkg_info.dirPath = original_dir)
  if !out_node_modules || is_rs then
    exportsFieldPluginApply r pkg_info module_info
  else State.Resolving module_info

/-- resolve.rs lines 120-123: a `Failed` per-module outcome is converted to
`Resolving` so that the ascent can continue. -/
def failedToResolving (state : State) : State :=
  match state with
  | .Failed info => State.Resolving info
  | _ => state

/-- resolve.rs lines 136-139: a final `Resolving` is downgraded to
`Failed`. -/
def downgradeResolving (stats : State) : State :=
  match stats with
  | .Resolving info => State.Failed info
  | _ => stats

/-- resolve.rs lines 128-139: the tail of `resolve_as_modules` — on a still
`Resolving` state re-enter `_resolve` (through `res`) with the base
replaced by the parent of `original_dir` when it exists, then downgrade a
final `Resolving` to `Failed`. -/
def ascendStage (res : Info → State) (original_dir : Path) (state : State) :
    State :=
  downgradeResolving
    (state.and_then (fun info =>
      match pathParent original_dir with
      | some parent_dir => res (info.withPath parent_dir)
      | none => State.Resolving info))

/-- resolve.rs lines 95-124 (the `module_path` is a directory or the
request is a self-reference): the per-manifest plugin chain followed by the
file/directory probes, with a `Failed` outcome converted to `Resolving`. -/
def modulesDirStage (r : Resolver) (fs : FileSystem) (res : Info → State)
    (pkgw : Option PkgInfo) (original_dir : Path) (is_rs : Bool)
    (module_info : Info) : State :=
  let state :=
    ((match pkgw with
      | some pkg_info =>
        ((((exportsStage r pkg_info original_dir is_rs module_info).and_then
            (fun info => importsFieldPluginApply r res (some pkg_info) info)).and_then
          (fun info =>
            let path := pathJoin info.path info.request.target
            let info := (info.withPath path).with_target "."
            main_field_plugin_apply r res pkg_info info)).and_then
          (fun info => aliasFieldPluginApply r res (some pkg_info) info))
      | none => State.Resolving module_info).and_then
      (fun info => resolve_as_file r fs info)).and_then
      (fun info => resolve_as_dir r fs res info)
  failedToResolving state

/-- resolve.rs `resolve_as_modules` (lines 69-140).  The source's early
`return State::Error(err)` on a failing probe of `module_path` coincides
with letting the `Error` flow through `and_then` and the final match, which
both pass it unchanged. -/
def resolve_as_modules (r : Resolver) (fs : FileSystem) (res : Info → State)
    (info : Info) : State :=
  let original_dir := info.path
  let module_root_path := original_dir ++ [ MODULE ]
  match fs.loadEntry module_root_path with
  | .error err => State.Error err
  | .ok rootEntry =>
    ascendStage res original_dir
      (if rootEntry.isDir then
        let request_module_name := get_module_name_from_request info.request.target
        let module_path := pathJoin module_root_path request_module_name
        match fs.loadEntry module_path with
        | .error err => State.Error err
        | .ok entry =>
          let module_path_is_dir := entry.isDir
          let is_rs :=
            (entry.pkgInfo.map
              (fun pkg_info => is_resolve_self pkg_info request_module_name)).getD false
          let module_info := Info.mk module_root_path info.request
          if !module_path_is_dir && !is_rs then
            let state := resolve_as_file r fs module_info
            if state.is_finished then state else State.Resolving info
          else
            modulesDirStage r fs res entry.pkgInfo original_dir is_rs module_info
      else State.Resolving info)

/-- Modelled from the spec §7: the internal sentinel marking a
not-yet-final error message (utils.rs is not in the snapshot). -/
def RAISE_RESOLVE_ERROR_TAG : ResolverError := "$$RAISE_RESOLVE_ERROR_TAG$$"

/-- Modelled from the spec §7: the final not-found message built from the
request and the base directory (utils.rs is not in the snapshot). -/
def raise_resolve_failed_message (info : Info) : ResolverError :=
  "Resolve '" ++ info.request.target ++ "' in '" ++
    String.intercalate "/" info.path ++ "' failed"

/-- lib.rs lines 232-236: the path whose enclosing manifest the pipeline
loads — under `node_modules` for a `Normal` request, the joined path
otherwise. -/
def pkgProbeTarget (info : Info) : Path :=
  if info.request.kind == PathKind.Normal then
    pathJoin (info.path ++ [ MODULE ]) info.request.target
  else info.get_path

/-- lib.rs `_resolve` pipeline (lines 228-255), the `stats` value before the
final match: alias, prefer-relative, manifest loading with imports-field and
alias-field, then the kind dispatch onto file/dir or modules resolution.
`res` is the re-entry into `_resolve` used by the plugins and the module
walk. -/
def resolveStatsPipeline (r : Resolver) (fs : FileSystem) (res : Info → State)
    (info : Info) : State :=
  (((aliasPluginApply r res info).and_then
      (fun info => preferRelativePluginApply r res info)).and_then
    (fun info =>
      match fs.loadPkg (pkgProbeTarget info) with
      | .error err => State.Error err
      | .ok pkg_info_wrap =>
        (importsFieldPluginApply r res pkg_info_wrap info).and_then
          (fun info => aliasFieldPluginApply r res pkg_info_wrap info))).and_then
    (fun info =>
      if (match info.request.kind with
          | .AbsolutePosix | .AbsoluteWin | .Relative => true
          | _ => false) then
        (resolve_as_file r fs info).and_then
          (fun info => resolve_as_dir r fs res info)
      else resolve_as_modules r fs res info)

/-- lib.rs `_resolve` (lines 226-269).  The fuel realises the spec's
recursion-depth loop-guard (§5); exhausting it is the `RecursionLimit`
error.  In the wildcard arm of the final match the source panics with
`unreachable!()`; the model passes the state through unchanged, and the
reachability of that arm is settled separately (see the claim on the
`unreachable` arms). -/
def underscore_resolve (r : Resolver) (fs : FileSystem) :
    Nat → Info → State
  | 0, _ => State.Error "RecursionLimit"
  | fuel + 1, info =>
    let resolve_err_msg := raise_resolve_failed_message info
    match resolveStatsPipeline r fs (fun i => underscore_resolve r fs fuel i) info with
    | .Success result => State.Success result
    | .Error err_msg =>
      State.Error (if err_msg == RAISE_RESOLVE_ERROR_TAG then resolve_err_msg else err_msg)
    | stats => stats

/-- Modelled from the spec §4.1: split a character list at the first
occurrence of `c` that is not preceded by an unescaped backslash; the
second component begins with `c` when found. -/
def splitEsc (c : Char) : List Char → List Char × List Char
  | [] => ([], [])
  | '\\' :: d :: rest =>
    let p := splitEsc c rest
    ('\\' :: d :: p.1, p.2)
  | d :: rest =>
    if d = c then ([], d :: rest)
    else
      let p := splitEsc c rest
      (d :: p.1, p.2)

/-- Modelled from the spec §4.1: `parse(raw)` — split on the first unescaped
`#` into head and fragment, split the head on the first unescaped `?` into
target and query, and classify the target (parse.rs is not in the
snapshot). -/
def parseRequest (raw : String) : Request :=
  let hf := splitEsc '#' raw.toList
  let tq := splitEsc '?' hf.1
  let target := String.mk tq.1
  Request.mk target (String.mk tq.2) (String.mk hf.2) (get_target_kind target)

/-- Modelled from the spec §6: lexical normalization of the result path —
drop `.` segments and let `..` pop its parent (normalize.rs is not in the
snapshot). -/
def normalizeSegments : Path → Path
  | [] => []
  | seg :: rest =>
    if seg = "." then normalizeSegments rest
    else if seg = ".." then
      match normalizeSegments rest with
      | _ :: tail => tail
      | [] => []
    else seg :: normalizeSegments rest

/-- Modelled from the spec §6: `normalize_result` applied to a successful
resolution (normalize.rs is not in the snapshot).  The segments are
normalized back-to-front so a leading run of `..` at the root vanishes,
like Rust lexical normalization of an absolute path. -/
def normalize_result : ResolveResult → Except ResolverError ResolveResult
  | .Ignored => .ok .Ignored
  | .Info info =>
    .ok (.Info (info.withPath ((normalizeSegments info.path.reverse).reverse)))

/-- Modelled from the spec §5: the default recursion-depth ceiling. -/
def RECURSION_LIMIT : Nat := 1024

/-- lib.rs `Resolver::resolve` (lines 210-223), without the optional
typed-config pre-pass (`options.tsconfig` absent from the embedded
options).  The wildcard arm of the source is `unreachable!()` — a panic —
modelled as `none`; a `some` value is the returned `Result`. -/
def Resolver.resolve (r : Resolver) (fs : FileSystem) (path : Path)
    (request : String) : Option (Except ResolverError ResolveResult) :=
  let info := Info.mk path (parseRequest request)
  match underscore_resolve r fs RECURSION_LIMIT info with
  | .Success result => some (normalize_result result)
  | .Error err_msg => some (Except.error err_msg)
  | _ => none

/-- Claim-side reading of `resolve_as_file`: the first extension whose
appended path probes as a file, as an explicit search returning the hit. -/
def firstExtHit (fs : FileSystem) (path : Path) :
    List String → Except ResolverError (Option Path)
  | [] => .ok none
  | ext :: rest =>
    let p := append_ext_for_path path ext
    match fs.loadEntry p with
    | .error err => .error err
    | .ok entry => if entry.isFile then .ok (some p) else firstExtHit fs path rest

/-- Claim-side reading of `resolve_as_file`, following the claim's words:
skip the bare probe exactly under `Enabled` enforcement, else probe the bare
path first; then search the configured extensions in order; fall back to
`Resolving` with the unchanged info. -/
def resolveAsFileClaim (r : Resolver) (fs : FileSystem) (info : Info) : State :=
  let p := info.get_path
  let bare : Except ResolverError (Option Path) :=
    if r.options.enforceExtension == some true then .ok none
    else
      match fs.loadEntry p with
      | .error err => .error err
      | .ok entry => if entry.isFile then .ok (some p) else .ok none
  match bare with
  | .error err => State.Error err
  | .ok (some q) =>
    State.Success (ResolveResult.Info ((info.withPath q).with_target ""))
  | .ok none =>
    match firstExtHit fs p r.options.extensions with
    | .error err => State.Error err
    | .ok (some q) =>
      State.Success (ResolveResult.Info ((info.withPath q).with_target ""))
    | .ok none => State.Resolving info

/-- Claim-side: the indices of `/` in a character list, front to back. -/
def slashIdxs : List Char → List Nat
  | [] => []
  | c :: cs =>
    if c = '/' then 0 :: (slashIdxs cs).map (fun i => i + 1)
    else (slashIdxs cs).map (fun i => i + 1)

/-- Claim-side: the characters strictly before the `n+1`-st slash of the
list, `none` when the list holds at most `n` slashes. -/
def takeBeforeSlash : Nat → List Char → Option (List Char)
  | _, [] => none
  | 0, c :: cs =>
    if c = '/' then some [] else (takeBeforeSlash 0 cs).map (fun l => c :: l)
  | n + 1, c :: cs =>
    if c = '/' then (takeBeforeSlash n cs).map (fun l => c :: l)
    else (takeBeforeSlash (n + 1) cs).map (fun l => c :: l)

/-- The claim's reading of the module-name extraction: the character
substring up to (excluding) the second slash for a scoped target and up to
the first slash otherwise, the whole target when it has too few slashes. -/
def moduleNameOfTarget (t : String) : String :=
  match (if strStartsWith t "@" then takeBeforeSlash 1 t.toList
         else takeBeforeSlash 0 t.toList) with
  | some cs => String.mk cs
  | none => t

/-- The amended reading of the module-name extraction: the slash is located
at its character ordinal, but the cut takes that many bytes of the target;
`none` is the panic on an offset that is not a character boundary. -/
def moduleNameAmended (t : String) : Option String :=
  match (if strStartsWith t "@" then takeBeforeSlash 1 t.toList
         else takeBeforeSlash 0 t.toList) with
  | some cs => (takeBytes t.toList cs.length).map String.mk
  | none => some t

/-- The claim's reading of the main-field loop: a value of `"."` or `"./"`
merely fails to qualify and iteration continues with the next name. -/
def firstMainFieldStateSkip (res : Info → State) (pkg_info : PkgInfo)
    (main_field_info : Info) : List String → Option State
  | [] => none
  | f :: rest =>
    match pkg_info.rawGetStr f with
    | none => firstMainFieldStateSkip res pkg_info main_field_info rest
    | some v =>
      if v == "." || v == "./" then
        firstMainFieldStateSkip res pkg_info main_field_info rest
      else
        let st := res (if strStartsWith v "./" then main_field_info.with_target v
                       else main_field_info.with_target ("./" ++ v))
        if st.is_finished then some st
        else firstMainFieldStateSkip res pkg_info main_field_info rest

/-- The main-field plugin exactly as the claim states it (skip semantics for
`"."` / `"./"` values). -/
def mainFieldAsClaimed (r : Resolver) (res : Info → State) (pkg_info : PkgInfo)
    (info : Info) : State :=
  if pkg_info.dirPath = info.normalized_path then
    (firstMainFieldStateSkip res pkg_info
        ((Info.mk info.normalized_path (Request.mk "" "" "" PathKind.Empty)).with_request
          info.request)
        r.options.mainFields).getD (State.Resolving info)
  else State.Resolving info

/-- The amended reading of the main-field loop: a value of `"."` or `"./"`
stops the iteration — later main-field names are not consulted. -/
def firstMainFieldState (res : Info → State) (pkg_info : PkgInfo)
    (main_field_info : Info) : List String → Option State
  | [] => none
  | f :: rest =>
    match pkg_info.rawGetStr f with
    | none => firstMainFieldState res pkg_info main_field_info rest
    | some v =>
      if v == "." || v == "./" then none
      else
        let st := res (if strStartsWith v "./" then main_field_info.with_target v
                       else main_field_info.with_target ("./" ++ v))
        if st.is_finished then some st
        else firstMainFieldState res pkg_info main_field_info rest

/-- The main-field plugin as amended (break semantics for `"."` / `"./"`
values, matching main_field.rs lines 29-32). -/
def mainFieldAmended (r : Resolver) (res : Info → State) (pkg_info : PkgInfo)
    (info : Info) : State :=
  if pkg_info.dirPath = info.normalized_path then
    (firstMainFieldState res pkg_info
        ((Info.mk info.normalized_path (Request.mk "" "" "" PathKind.Empty)).with_request
          info.request)
        r.options.mainFields).getD (State.Resolving info)
  else State.Resolving info

/-- A small concrete option set used by the concrete runs below. -/
def wOpts : ResolverOptions :=
  { extensions := [".js"], enforceExtension := some false }

/-- A concrete resolver over `wOpts`. -/
def wR : Resolver := Resolver.mk wOpts

/-- A concrete filesystem on which every probe answers `missing` and no
directory has a manifest. -/
def wFsEmpty : FileSystem :=
  { loadEntry := fun _ => .ok (Entry.mk .missing none)
    loadPkg := fun _ => .ok none }

/-- Concrete manifest for the main-field counterexample: the first
configured main field holds `"."`, the second a resolvable `"./x"`. -/
def c2pkg : PkgInfo :=
  { dirPath := ["p"], raw := [("m1", .str "."), ("m2", .str "./x")] }

/-- Concrete resolver for the main-field counterexample, with two
main-field names configured. -/
def c2r : Resolver :=
  Resolver.mk { extensions := [".js"], enforceExtension := some false,
                mainFields := ["m1", "m2"] }

/-- Concrete filesystem for the main-field counterexample: `/p/./x` (the
un-normalized join of `/p` and `./x`) is a file. -/
def c2fs : FileSystem :=
  { loadEntry := fun p =>
      if p = ["p", ".", "x"] then .ok (Entry.mk .file none)
      else .ok (Entry.mk .missing none)
    loadPkg := fun _ => .ok none }

/-- Concrete info for the main-field counterexample: the directory `/p`
with an empty target, so the normalized path equals the manifest
directory. -/
def c2info : Info := Info.mk ["p"] (Request.mk "" "" "" PathKind.Empty)

/-- Concrete filesystem for the modules-as-file witness: `/p/node_modules`
is a directory, `/p/node_modules/foo` is missing, and
`/p/node_modules/foo.js` is a file. -/
def c3fs : FileSystem :=
  { loadEntry := fun p =>
      if p = ["p", "node_modules"] then .ok (Entry.mk .dir none)
      else if p = ["p", "node_modules", "foo.js"] then .ok (Entry.mk .file none)
      else .ok (Entry.mk .missing none)
    loadPkg := fun _ => .ok none }

/-- Concrete info for the modules-as-file witness: a bare request `foo`
issued from `/p`. -/
def c3info : Info := Info.mk ["p"] (Request.mk "foo" "" "" PathKind.Normal)

theorem resolve_file_with_ext_go_eq (fs : FileSystem) (path : Path) (info : Info)
    (exts : List String) :
    resolve_file_with_ext_go fs path info exts =
      (match firstExtHit fs path exts with
       | .error err => State.Error err
       | .ok (some q) =>
           State.Success (ResolveResult.Info ((info.withPath q).with_target ""))
       | .ok none => State.Resolving info) := by
  induction exts with
  | nil => rfl
  | cons ext rest ih =>
    simp only [resolve_file_with_ext_go, firstExtHit]
    cases h : fs.loadEntry (append_ext_for_path path ext) with
    | error err => rfl
    | ok entry =>
      by_cases hf : entry.isFile
      · simp [hf]
      · simp [hf, ih]

/-- Claim C5: `resolve_as_file` skips the bare-path probe exactly under
`Enabled` extension enforcement, otherwise succeeds on a bare file hit;
then the configured extensions are tried in order with the first file hit
succeeding, and with `Resolving` on the unchanged info when nothing hits. -/
theorem c5 (r : Resolver) (fs : FileSystem) (info : Info) :
    resolve_as_file r fs info = resolveAsFileClaim r fs info := by
  unfold resolve_as_file resolveAsFileClaim resolve_file_with_ext
  by_cases he : r.options.enforceExtension == some true
  · simp [he, resolve_file_with_ext_go_eq]
  · simp only [he, if_neg, Bool.false_eq_true, if_false]
    cases h : fs.loadEntry info.get_path with
    | error err => simp
    | ok entry =>
      by_cases hf : entry.isFile
      · simp [hf]
      · simp [hf, resolve_file_with_ext_go_eq]

theorem enumFrom_filter_slash (l : List Char) :
    ∀ k : Nat,
      ((List.enumFrom k l).filter (fun p => decide (p.2 = '/'))).map Prod.fst
        = (slashIdxs l).map (fun i => i + k) := by
  induction l with
  | nil => intro k; rfl
  | cons c cs ih =>
    intro k
    have hshift : (fun i => i + 1 + k) = (fun i : Nat => i + (k + 1)) := by
      funext i; omega
    have henum : List.enumFrom k (c :: cs) = (k, c) :: List.enumFrom (k + 1) cs := rfl
    by_cases hc : c = '/'
    · rw [henum, List.filter_cons]
      simp only [hc, slashIdxs, if_pos, decide_True, List.map_cons, List.map_map,
        ih (k + 1), Nat.zero_add]
      rw [Function.comp_def, hshift]
    · rw [henum, List.filter_cons]
      simp only [hc, slashIdxs, decide_False, Bool.false_eq_true, if_false,
        List.map_map, ih (k + 1), if_neg]
      rw [Function.comp_def, hshift]

theorem slashIdxs_get_take (l : List Char) :
    ∀ n : Nat, ((slashIdxs l).get? n).map l.take = takeBeforeSlash n l := by
  induction l with
  | nil => intro n; cases n <;> rfl
  | cons c cs ih =>
    intro n
    by_cases hc : c = '/'
    · cases n with
      | zero =>
        simp [slashIdxs, hc, takeBeforeSlash]
      | succ m =>
        simp only [slashIdxs, hc, if_pos, takeBeforeSlash, List.get?, List.get?_map]
        rw [← ih m, Option.map_map, Option.map_map]
        congr 1
    · cases n with
      | zero =>
        simp only [slashIdxs, hc, Bool.false_eq_true, if_neg, takeBeforeSlash,
          if_false, List.get?_map]
        rw [← ih 0, Option.map_map, Option.map_map]
        congr 1
      | succ m =>
        simp only [slashIdxs, hc, Bool.false_eq_true, if_neg, takeBeforeSlash,
          if_false, List.get?_map]
        rw [← ih (m + 1), Option.map_map, Option.map_map]
        congr 1

theorem slashIdxs_mem_lt (l : List Char) : ∀ i ∈ slashIdxs l, i < l.length := by
  induction l with
  | nil => intro i hi; simp [slashIdxs] at hi
  | cons c cs ih =>
    intro i hi
    by_cases hc : c = '/'
    · simp only [slashIdxs, hc, if_pos] at hi
      rcases List.mem_cons.mp hi with h0 | hmem
      · subst h0; simp
      · rcases List.mem_map.mp hmem with ⟨j, hj, rfl⟩
        have := ih j hj
        simp only [List.length_cons]
        omega
    · simp only [slashIdxs, hc, Bool.false_eq_true, if_neg, if_false] at hi
      rcases List.mem_map.mp hi with ⟨j, hj, rfl⟩
      have := ih j hj
      simp only [List.length_cons]
      omega

/-- Claim C4 (amended): the slash is located at its character ordinal
(second slash for a target beginning with `@`, first otherwise; the whole
target with too few slashes), but the extracted module name is that many
initial bytes of the target — the source byte-slices at the character
ordinal — and the extraction panics when that byte offset is not a
character boundary.  For targets whose characters before the cut are all
single-byte this coincides with the claimed substring. -/
theorem c4 (target : String) :
    get_module_name_from_request_checked target = moduleNameAmended target := by
  unfold get_module_name_from_request_checked moduleNameAmended
  have h0 : ((target.toList.enum.filter (fun p => decide (p.2 = '/'))).map Prod.fst)
      = slashIdxs target.toList := by
    have h := enumFrom_filter_slash target.toList 0
    simpa [List.enum] using h
  have hhead : ∀ xs : List Nat, xs.head? = xs.get? 0 := by
    intro xs; cases xs <;> rfl
  have hcase : ∀ k : Nat,
      (match (slashIdxs target.toList).get? k with
       | some index => (takeBytes target.toList index).map String.mk
       | none => some target)
      = (match ((slashIdxs target.toList).get? k).map target.toList.take with
         | some cs => (takeBytes target.toList cs.length).map String.mk
         | none => some target) := by
    intro k
    cases hget : (slashIdxs target.toList).get? k with
    | none => rfl
    | some i =>
      have hlt : i < target.toList.length :=
        slashIdxs_mem_lt target.toList i (List.get?_mem hget)
      simp only [Option.map_some', List.length_take]
      rw [min_eq_left (le_of_lt hlt)]
  by_cases hs : strStartsWith target "@"
  · simp only [hs, if_pos, h0]
    rw [← slashIdxs_get_take target.toList 1]
    exact hcase 1
  · simp only [hs, Bool.false_eq_true, if_neg, if_false, h0, hhead]
    rw [← slashIdxs_get_take target.toList 0]
    exact hcase 0

/-- Claim C4 counterexample: on `"ße/x"` the source returns the first two
bytes `"ß"` while the claimed character substring is `"ße"`; on `"aé/x"`
the byte offset 2 splits `é`, so the source's slice panics where the claim
predicts `"aé"`. -/
theorem c4_counterexample :
    get_module_name_from_request "ße/x" = "ß"
    ∧ moduleNameOfTarget "ße/x" = "ße"
    ∧ get_module_name_from_request "ße/x" ≠ moduleNameOfTarget "ße/x"
    ∧ get_module_name_from_request_checked "aé/x" = none
    ∧ moduleNameOfTarget "aé/x" = "aé" := by
  exact ⟨by decide, by decide, by decide, by decide, by decide⟩

/-- Claim C8: `Resolver::new` strips one leading `.` from every configured
extension; an unset `enforce_extension` defaults to enabled exactly when
some stripped extension entry is empty; an explicitly set value is kept
unchanged. -/
theorem c8 (o : ResolverOptions) :
    ((Resolver.new o).options.extensions
        = o.extensions.map (fun s => if strStartsWith s "." then strDrop s 1 else s))
    ∧ (o.enforceExtension = none →
        ((Resolver.new o).options.enforceExtension = some true ↔
          ∃ s ∈ o.extensions, (if strStartsWith s "." then strDrop s 1 else s) = ""))
    ∧ (∀ b : Bool, o.enforceExtension = some b →
        (Resolver.new o).options.enforceExtension = some b) := by
  refine ⟨rfl, ?_, ?_⟩
  · intro h
    unfold Resolver.new
    simp only [h, Option.isNone_none, if_pos, Option.some.injEq]
    rw [List.any_eq_true]
    constructor
    · rintro ⟨x, hx, hxe⟩
      rcases List.mem_map.mp hx with ⟨s, hs, rfl⟩
      exact ⟨s, hs, beq_iff_eq.mp hxe⟩
    · rintro ⟨s, hs, hse⟩
      refine ⟨(if strStartsWith s "." then strDrop s 1 else s),
        List.mem_map.mpr ⟨s, hs, rfl⟩, beq_iff_eq.mpr hse⟩
  · intro b hb
    unfold Resolver.new
    simp [hb]

/-- Claim C8 witness: with the single extension `"."` (which strips to the
empty string) and `enforce_extension` unset, construction defaults the
enforcement to enabled. -/
theorem c8_witness :
    (Resolver.new { extensions := ["."], enforceExtension := none }).options.enforceExtension
      = some true :=
  ((c8 { extensions := ["."], enforceExtension := none }).2.1 rfl).mpr
    ⟨".", by simp, by rfl⟩

/-- Claim C1: in the manifest branch of `resolve_as_modules`, the
exports-field plugin is skipped exactly when the manifest directory equals
the original directory and the request is not a self-reference, where
self-reference means the manifest's declared name equals the module name
extracted from the target; in every other case the plugin is applied. -/
theorem c1 (r : Resolver) (pkg_info : PkgInfo) (original_dir : Path)
    (target : String) (module_info : Info) :
    (is_resolve_self pkg_info (get_module_name_from_request target) = true ↔
        pkg_info.name = some (get_module_name_from_request target))
    ∧ (pkg_info.dirPath = original_dir ∧
          is_resolve_self pkg_info (get_module_name_from_request target) = false →
        exportsStage r pkg_info original_dir
            (is_resolve_self pkg_info (get_module_name_from_request target)) module_info
          = State.Resolving module_info)
    ∧ (¬(pkg_info.dirPath = original_dir ∧
            is_resolve_self pkg_info (get_module_name_from_request target) = false) →
        exportsStage r pkg_info original_dir
            (is_resolve_self pkg_info (get_module_name_from_request target)) module_info
          = exportsFieldPluginApply r pkg_info module_info) := by
  refine ⟨?_, ?_, ?_⟩
  · unfold is_resolve_self
    cases hname : pkg_info.name with
    | none => simp
    | some n =>
      simp only [Option.map_some', Option.getD_some, beq_iff_eq, Option.some.injEq]
      exact eq_comm
  · rintro ⟨hdir, hself⟩
    unfold exportsStage
    rw [hself, hdir]
    simp
  · intro hno
    unfold exportsStage
    by_cases hdir : pkg_info.dirPath = original_dir
    · have hself : is_resolve_self pkg_info (get_module_name_from_request target) = true := by
        cases hb : is_resolve_self pkg_info (get_module_name_from_request target) with
        | false => exact absurd ⟨hdir, hb⟩ hno
        | true => rfl
      rw [hself]
      simp
    · simp only [decide_eq_true_eq]
      rw [if_pos]
      simp [hdir]

/-- Claim C1 witness: a manifest sitting in the original directory whose
declared name equals the requested module name (a self-reference), so the
exports-field plugin is applied. -/
theorem c1_witness :
    exportsStage wR (PkgInfo.mk ["p"] (some "x") [] none none []) ["p"]
        (is_resolve_self (PkgInfo.mk ["p"] (some "x") [] none none [])
          (get_module_name_from_request "x"))
        (Info.mk ["p", "node_modules"] (Request.mk "x" "" "" PathKind.Normal))
      = exportsFieldPluginApply wR (PkgInfo.mk ["p"] (some "x") [] none none [])
          (Info.mk ["p", "node_modules"] (Request.mk "x" "" "" PathKind.Normal)) :=
  (c1 wR (PkgInfo.mk ["p"] (some "x") [] none none []) ["p"] "x"
      (Info.mk ["p", "node_modules"] (Request.mk "x" "" "" PathKind.Normal))).2.2
    (by decide)

theorem downgradeResolving_ne (s : State) (i : Info) :
    downgradeResolving s ≠ State.Resolving i := by
  cases s <;> simp [downgradeResolving]

/-- Claim C6: in `resolve_as_modules` a `Failed` per-module outcome is
converted to `Resolving` before the ascent; a `Resolving` state ascends by
re-entering `_resolve` with the base replaced by the parent of the original
directory when one exists (the result still subject to the final
downgrade); and `resolve_as_modules` never returns `Resolving`. -/
theorem c6 (r : Resolver) (fs : FileSystem) (fuel : Nat) (info : Info) :
    (∀ i, failedToResolving (State.Failed i) = State.Resolving i)
    ∧ (∀ dir par i, pathParent dir = some par →
        ascendStage (fun j => underscore_resolve r fs fuel j) dir (State.Resolving i)
          = downgradeResolving (underscore_resolve r fs fuel (i.withPath par)))
    ∧ (∀ i, resolve_as_modules r fs (fun j => underscore_resolve r fs fuel j) info
          ≠ State.Resolving i) := by
  refine ⟨fun i => rfl, ?_, ?_⟩
  · intro dir par i h
    unfold ascendStage State.and_then
    simp [h]
  · intro i
    unfold resolve_as_modules
    cases h : fs.loadEntry (info.path ++ [ MODULE ]) with
    | error err => simp [h]
    | ok rootEntry =>
      simp only [h]
      exact downgradeResolving_ne _ i

/-- Claim C6 witness: the ascent from `/p` re-enters `_resolve` at the
root. -/
theorem c6_witness :
    ascendStage (fun j => underscore_resolve wR wFsEmpty 0 j) ["p"]
        (State.Resolving c3info)
      = downgradeResolving (underscore_resolve wR wFsEmpty 0 (c3info.withPath [])) :=
  (c6 wR wFsEmpty 0 c3info).2.1 ["p"] [] c3info rfl

theorem ascendStage_finished (res : Info → State) (dir : Path) (s : State)
    (h : s.is_finished = true) : ascendStage res dir s = s := by
  cases s with
  | Success r => rfl
  | Error e => rfl
  | Resolving i => simp [State.is_finished] at h
  | Failed i => simp [State.is_finished] at h

/-- Claim C3: when the probed module path is not a directory and the
request is not a self-reference, `resolve_as_modules` runs
`resolve_as_file` on the info based at the `node_modules` directory with
the original request; a finished state is returned as the overall result,
otherwise resolution falls through to the ascent with the original info. -/
theorem c3 (r : Resolver) (fs : FileSystem) (res : Info → State) (info : Info)
    (rootEntry entry : Entry)
    (h1 : fs.loadEntry (info.path ++ [ MODULE ]) = .ok rootEntry)
    (h2 : rootEntry.isDir = true)
    (h3 : fs.loadEntry (pathJoin (info.path ++ [ MODULE ])
            (get_module_name_from_request info.request.target)) = .ok entry)
    (h4 : entry.isDir = false)
    (h5 : (entry.pkgInfo.map (fun pkg_info =>
            is_resolve_self pkg_info (get_module_name_from_request info.request.target))).getD
            false = false) :
    ((resolve_as_file r fs (Info.mk (info.path ++ [ MODULE ]) info.request)).is_finished
        = true →
      resolve_as_modules r fs res info
        = resolve_as_file r fs (Info.mk (info.path ++ [ MODULE ]) info.request))
    ∧ ((resolve_as_file r fs (Info.mk (info.path ++ [ MODULE ]) info.request)).is_finished
        = false →
      resolve_as_modules r fs res info
        = ascendStage res info.path (State.Resolving info)) := by
  constructor
  · intro hfin
    unfold resolve_as_modules
    simp only [h1, h2, h3, h4, h5, Bool.not_false, Bool.and_self, if_pos, hfin,
      if_true]
    exact ascendStage_finished res info.path _ hfin
  · intro hfin
    unfold resolve_as_modules
    simp only [h1, h2, h3, h4, h5, Bool.not_false, Bool.and_self, if_pos, hfin,
      Bool.false_eq_true, if_false, if_true]

/-- Claim C3 witness: a bare request `foo` from `/p` where
`/p/node_modules/foo` is missing but `/p/node_modules/foo.js` is a file, so
the file-only resolution over the `node_modules` base is returned. -/
theorem c3_witness :
    resolve_as_modules wR c3fs (fun j => underscore_resolve wR c3fs 5 j) c3info
      = resolve_as_file wR c3fs (Info.mk (c3info.path ++ [ MODULE ]) c3info.request) :=
  (c3 wR c3fs (fun j => underscore_resolve wR c3fs 5 j) c3info
      (Entry.mk .dir none) (Entry.mk .missing none) rfl rfl rfl rfl rfl).1 rfl

theorem and_then_resolving (i : Info) (f : Info → State) :
    (State.Resolving i).and_then f = f i := rfl

/-- Claim C7: once the alias, prefer-relative, imports-field and
alias-field plugins have passed through (and the manifest probe returned),
`_resolve` dispatches on the request kind — `AbsolutePosix`, `AbsoluteWin`
and `Relative` go through `resolve_as_file` then (only while still
`Resolving`) `resolve_as_dir`; every other kind goes through
`resolve_as_modules`. -/
theorem c7 (r : Resolver) (fs : FileSystem) (res : Info → State)
    (info i1 i2 : Info) (pw : Option PkgInfo) (i3 i4 : Info)
    (h1 : aliasPluginApply r res info = State.Resolving i1)
    (h2 : preferRelativePluginApply r res i1 = State.Resolving i2)
    (h3 : fs.loadPkg (pkgProbeTarget i2) = .ok pw)
    (h4 : importsFieldPluginApply r res pw i2 = State.Resolving i3)
    (h5 : aliasFieldPluginApply r res pw i3 = State.Resolving i4) :
    resolveStatsPipeline r fs res info =
      (if i4.request.kind = PathKind.AbsolutePosix ∨ i4.request.kind = PathKind.AbsoluteWin
          ∨ i4.request.kind = PathKind.Relative then
        (resolve_as_file r fs i4).and_then (fun j => resolve_as_dir r fs res j)
      else resolve_as_modules r fs res i4) := by
  unfold resolveStatsPipeline
  rw [h1]; simp only [and_then_resolving]
  rw [h2]; simp only [and_then_resolving]
  simp only [h3]
  rw [h4]; simp only [and_then_resolving]
  rw [h5]; simp only [and_then_resolving]
  cases hk : i4.request.kind <;> simp [hk]

/-- Claim C7 witness: a relative request from `/p` over the empty
filesystem, on which every earlier plugin passes through unchanged. -/
theorem c7_witness :
    resolveStatsPipeline wR wFsEmpty (fun i => State.Failed i)
        (Info.mk ["p"] (Request.mk "./a" "" "" PathKind.Relative)) =
      (if (Info.mk ["p"] (Request.mk "./a" "" "" PathKind.Relative)).request.kind
            = PathKind.AbsolutePosix ∨
          (Info.mk ["p"] (Request.mk "./a" "" "" PathKind.Relative)).request.kind
            = PathKind.AbsoluteWin ∨
          (Info.mk ["p"] (Request.mk "./a" "" "" PathKind.Relative)).request.kind
            = PathKind.Relative then
        (resolve_as_file wR wFsEmpty
            (Info.mk ["p"] (Request.mk "./a" "" "" PathKind.Relative))).and_then
          (fun j => resolve_as_dir wR wFsEmpty (fun i => State.Failed i) j)
      else resolve_as_modules wR wFsEmpty (fun i => State.Failed i)
          (Info.mk ["p"] (Request.mk "./a" "" "" PathKind.Relative))) :=
  c7 wR wFsEmpty (fun i => State.Failed i)
    (Info.mk ["p"] (Request.mk "./a" "" "" PathKind.Relative))
    (Info.mk ["p"] (Request.mk "./a" "" "" PathKind.Relative))
    (Info.mk ["p"] (Request.mk "./a" "" "" PathKind.Relative)) none
    (Info.mk ["p"] (Request.mk "./a" "" "" PathKind.Relative))
    (Info.mk ["p"] (Request.mk "./a" "" "" PathKind.Relative))
    rfl rfl rfl rfl rfl

theorem main_field_go_eq (res : Info → State) (pkg_info : PkgInfo)
    (info mfi : Info) (fields : List String) :
    main_field_plugin_go res pkg_info info mfi fields
      = (firstMainFieldState res pkg_info mfi fields).getD (State.Resolving info) := by
  induction fields with
  | nil => rfl
  | cons f rest ih =>
    simp only [main_field_plugin_go, firstMainFieldState]
    cases hv : pkg_info.rawGetStr f with
    | none => exact ih
    | some v =>
      by_cases hdot : (v == "." || v == "./") = true
      · simp [hdot]
      · rw [Bool.not_eq_true] at hdot
        by_cases hf : (res (if strStartsWith v "./" then mfi.with_target v
            else mfi.with_target ("./" ++ v))).is_finished
        · simp [hdot, hf]
        · rw [Bool.not_eq_true] at hf
          simp [hdot, hf, ih]

/-- Claim C2 (amended): `MainFieldPlugin`, on a directory whose enclosing
manifest directory equals the normalized path, iterates the configured
main-field names in order but stops at the first one whose string value is
`"."` or `"./"` (later names are not consulted); each earlier name with
any other string value re-enters `_resolve` with the target rewritten to
the value prefixed by `./` when absent; the first finished state is
returned, and with none the original info passes through. -/
theorem c2 (r : Resolver) (res : Info → State) (pkg_info : PkgInfo)
    (info : Info) :
    main_field_plugin_apply r res pkg_info info
      = mainFieldAmended r res pkg_info info := by
  unfold main_field_plugin_apply mainFieldAmended
  by_cases hdir : pkg_info.dirPath = info.normalized_path
  · simp [hdir, main_field_go_eq]
  · simp [hdir]

/-- Claim C2 counterexample: with main fields `["m1", "m2"]`, a manifest
holding `m1 = "."` and `m2 = "./x"`, and `./x` resolving to a file, the
plugin stops at `m1` and passes through, while the claim's reading (skip a
`"."` value and keep iterating) would return the success produced by
`m2`. -/
theorem c2_counterexample :
    main_field_plugin_apply c2r (fun i => underscore_resolve c2r c2fs 10 i) c2pkg c2info
      ≠ mainFieldAsClaimed c2r (fun i => underscore_resolve c2r c2fs 10 i) c2pkg c2info := by
  decide

/-- Claim C9: with the filesystem probe and the manifest loader answering
identically in both runs, `resolve` returns equal results; in particular a
repeated call is equal to itself. -/
theorem c9 (r : Resolver) (fs fs2 : FileSystem) (path : Path) (request : String)
    (hE : ∀ p, fs.loadEntry p = fs2.loadEntry p)
    (hP : ∀ p, fs.loadPkg p = fs2.loadPkg p) :
    Resolver.resolve r fs path request = Resolver.resolve r fs2 path request ∧
      Resolver.resolve r fs path request = Resolver.resolve r fs path request := by
  have hfs : fs = fs2 := by
    cases fs
    cases fs2
    simp only [FileSystem.mk.injEq]
    exact ⟨funext (fun p => hE p), funext (fun p => hP p)⟩
  exact ⟨by rw [hfs], rfl⟩

/-- Claim C9 witness: the repeated call on a concrete resolver and
filesystem. -/
theorem c9_witness :
    Resolver.resolve wR wFsEmpty ["p"] "foo"
      = Resolver.resolve wR wFsEmpty ["p"] "foo" :=
  (c9 wR wFsEmpty wFsEmpty ["p"] "foo" (fun _ => rfl) (fun _ => rfl)).1

/-- Claim C10: on the empty filesystem the request `./a` from `/p` drives
the `_resolve` pipeline into the `Failed` state, so the final match of
`_resolve` takes its wildcard arm — `unreachable!()` in lib.rs line 267 —
and the top-level `resolve` (whose own wildcard arm at line 221 is
`unreachable!()` as well) panics, modelled here by the `none` result. -/
theorem c10 :
    resolveStatsPipeline wR wFsEmpty (fun i => underscore_resolve wR wFsEmpty 1023 i)
        (Info.mk ["p"] (parseRequest "./a"))
      = State.Failed (Info.mk ["p"] (parseRequest "./a"))
    ∧ Resolver.resolve wR wFsEmpty ["p"] "./a" = none := by
  exact ⟨rfl, rfl⟩

end NodeResolver
